import Mathlib

/-!
Verification of the play-by-play analysis engine of the LNP_data repository.

The definitions below are shallow embeddings of the Python functions in
`functions/scraper.py` (event normalisation, `enrich_pbp_dataframe`) and
`functions/pbp_analysis.py` (`fix_pbp_time_format`, `compute_scoring_runs`,
`compute_comeback_stats`).  Python integers are modelled as `Int`, pandas
rows as structures, dataframes as lists of rows, and row-wise column
assignments as functions on rows.
-/

namespace LNP

/-- Python `str.split(sep)` for a one-character separator, on the
character list of the string. -/
def splitChars (sep : Char) : List Char → List Char → List (List Char)
  | [], acc => [acc.reverse]
  | c :: cs, acc =>
      if c = sep then acc.reverse :: splitChars sep cs []
      else splitChars sep cs (c :: acc)

/-- The numeric value of a decimal digit character. -/
def digitVal (c : Char) : Option Nat :=
  if c.isDigit then some (c.toNat - Char.toNat '0') else none

/-- Digits folded into a natural number; a non-digit fails. -/
def parseNatAux : List Char → Nat → Option Nat
  | [], acc => some acc
  | c :: cs, acc =>
      match digitVal c with
      | some d => parseNatAux cs (acc * 10 + d)
      | none => none

/-- Model of Python `int(s)` on the strings that appear in score and clock
texts: an optional minus sign followed by decimal digits.  `int` raising
`ValueError` is modelled by `none`. -/
def pyIntChars : List Char → Option Int
  | [] => none
  | c :: cs =>
      if c = '-' then
        match cs with
        | [] => none
        | _ :: _ => (parseNatAux cs 0).map fun n => -(n : Int)
      else (parseNatAux (c :: cs) 0).map fun n => (n : Int)

/-- `pyIntChars` on a string. -/
def pyInt? (s : String) : Option Int := pyIntChars s.toList

/-- `time_to_seconds` from `enrich_pbp_dataframe` (scraper.py lines 521-528):
empty or missing text gives 0; otherwise the text is split on `:` and the
first two parts are parsed as minutes and seconds; any failure (too few
parts, non-numeric part) is caught by the bare `except` and gives 0. -/
def time_to_seconds (t : String) : Int :=
  if t = "" then 0
  else
    match splitChars ':' t.toList [] with
    | p0 :: p1 :: _ =>
        match pyIntChars p0, pyIntChars p1 with
        | some m, some s => m * 60 + s
        | _, _ => 0
    | _ => 0

/-- Score extraction in `read_play_by_play` (scraper.py lines 50-53 together
with the enclosing `try`/`except ... continue`): a missing score element
(`none`) drops the event; a text splitting on `-` into exactly two parts is
parsed with `int`, and a parse failure raises, which drops the event; any
other number of parts yields the pair `(0, 0)`. -/
def readEventScore (scoreText : Option String) : Option (Int × Int) :=
  match scoreText with
  | none => none
  | some s =>
      match splitChars '-' s.toList [] with
      | [x, y] =>
          match pyIntChars x, pyIntChars y with
          | some h, some a => some (h, a)
          | _, _ => none
      | _ => some (0, 0)

/-- The per-row derived columns produced by `enrich_pbp_dataframe` and
rewritten by `fix_pbp_time_format` (only the row-wise fields the claims
are about). -/
structure EnrichedRow where
  quarter : Int
  time_seconds : Int
  total_seconds : Int
  gap : Int
  clutch : Bool
deriving DecidableEq, Repr

/-- Row-wise part of `enrich_pbp_dataframe` (scraper.py lines 521-573):
parse the clock, remap a parsed 0 to 600 (the feed writes `00:00` for end
of quarter), derive `total_seconds`, `gap`, and the clutch flag
`(quarter >= 4) & (time_seconds >= 480) & (|gap| <= 5)`. -/
def enrichRow (quarter : Int) (time : String) (score_home score_away : Int) :
    EnrichedRow :=
  let t0 := time_to_seconds time
  let t := if t0 = 0 then 600 else t0
  let gap := score_home - score_away
  { quarter := quarter
    time_seconds := t
    total_seconds := (quarter - 1) * 600 + t
    gap := gap
    clutch := decide (quarter ≥ 4) && decide (t ≥ 480) && decide (|gap| ≤ 5) }

/-- Row-wise part of `fix_pbp_time_format` (pbp_analysis.py lines 45-54),
applied by every `load_pbp_data` path: remap `time_seconds = 0` to 600,
recompute `total_seconds`, and (the `gap` column being present in the
saved frames) recompute `clutch` as
`(quarter == 4) & (time_seconds >= 480) & (|gap| <= 5)`. -/
def fix_pbp_time_format (e : EnrichedRow) : EnrichedRow :=
  let t := if e.time_seconds = 0 then 600 else e.time_seconds
  { e with
    time_seconds := t
    total_seconds := (e.quarter - 1) * 600 + t
    clutch := decide (e.quarter = 4) && decide (t ≥ 480) && decide (|e.gap| ≤ 5) }

/-- The clutch flag an event carries after the full pipeline: scraping
enrichment followed by the loader's time fix. -/
def pipelineRow (quarter : Int) (time : String) (score_home score_away : Int) :
    EnrichedRow :=
  fix_pbp_time_format (enrichRow quarter time score_home score_away)

/-- One row of the enriched play-by-play frame, restricted to the columns
the per-game analyses read. -/
structure Ev where
  game_code : String
  quarter : Int
  total_seconds : Int
  score_home : Int
  score_away : Int
  gap : Int
  home_team : String
  away_team : String
deriving DecidableEq, Repr

instance : Inhabited Ev := ⟨⟨"", 0, 0, 0, 0, 0, "", ""⟩⟩

/-- Sort key of `compute_scoring_runs` (pbp_analysis.py line 487):
`sort_values('total_seconds')`. -/
@[reducible] def runsLe (a b : Ev) : Prop := a.total_seconds ≤ b.total_seconds

instance : DecidableRel runsLe := fun _ _ => inferInstance

instance : IsTotal Ev runsLe := ⟨fun _ _ => Int.le_total _ _⟩

instance : IsTrans Ev runsLe := ⟨fun _ _ _ h h' => Int.le_trans h h'⟩

/-- Sort key of `compute_comeback_stats` (pbp_analysis.py lines 614-616):
`sort_values(['total_seconds', 'total_score'])` with
`total_score = score_home + score_away`. -/
@[reducible] def cbLe (a b : Ev) : Prop :=
  a.total_seconds < b.total_seconds ∨
    (a.total_seconds = b.total_seconds ∧
      a.score_home + a.score_away ≤ b.score_home + b.score_away)

instance : DecidableRel cbLe := fun _ _ => inferInstance

instance : IsTotal Ev cbLe := by
  constructor
  intro a b
  unfold cbLe
  rcases lt_trichotomy a.total_seconds b.total_seconds with h | h | h
  · exact Or.inl (Or.inl h)
  · rcases Int.le_total (a.score_home + a.score_away) (b.score_home + b.score_away) with
      h' | h'
    · exact Or.inl (Or.inr ⟨h, h'⟩)
    · exact Or.inr (Or.inr ⟨h.symm, h'⟩)
  · exact Or.inr (Or.inl h)

instance : IsTrans Ev cbLe := by
  constructor
  intro a b c hab hbc
  unfold cbLe at *
  rcases hab with h1 | ⟨h1, h1'⟩
  · rcases hbc with h2 | ⟨h2, _⟩
    · exact Or.inl (h1.trans h2)
    · exact Or.inl (h2 ▸ h1)
  · rcases hbc with h2 | ⟨h2, h2'⟩
    · exact Or.inl (h1 ▸ h2)
    · exact Or.inr ⟨h1.trans h2, h1'.trans h2'⟩

/-- Events of one game in the order `compute_scoring_runs` iterates them. -/
def sortRunsEv (l : List Ev) : List Ev := List.insertionSort runsLe l

/-- Events of one game in the order `compute_comeback_stats` iterates them. -/
def sortCBEv (l : List Ev) : List Ev := List.insertionSort cbLe l

/-- A scoring side in the attributed stream. -/
inductive Side
  | home
  | away
deriving DecidableEq, Repr

/-- Score-delta attribution of `compute_scoring_runs`
(pbp_analysis.py lines 493-516): walk the sorted events keeping the running
pair `(prev_home, prev_away)` (initially `(0, 0)`); skip an event whose
scores are unchanged, or where either score decreased (corrupt data),
without advancing the running pair; otherwise record `('home', delta)` when
only the home score grew, `('away', delta)` when only the away score grew,
nothing when both grew (ambiguous), and advance the running pair. -/
def score_changes : List Ev → Int → Int → List (Side × Int)
  | [], _, _ => []
  | e :: rest, prev_home, prev_away =>
      if e.score_home = prev_home ∧ e.score_away = prev_away then
        score_changes rest prev_home prev_away
      else if e.score_home < prev_home ∨ e.score_away < prev_away then
        score_changes rest prev_home prev_away
      else
        let home_pts := e.score_home - prev_home
        let away_pts := e.score_away - prev_away
        let tail := score_changes rest e.score_home e.score_away
        if home_pts > 0 ∧ away_pts = 0 then (Side.home, home_pts) :: tail
        else if away_pts > 0 ∧ home_pts = 0 then (Side.away, away_pts) :: tail
        else tail

/-- The events of `score_changes` that advance the running pair (every
event that passes both skip checks, including ambiguous ones). -/
def attrRetained : List Ev → Int → Int → List Ev
  | [], _, _ => []
  | e :: rest, prev_home, prev_away =>
      if e.score_home = prev_home ∧ e.score_away = prev_away then
        attrRetained rest prev_home prev_away
      else if e.score_home < prev_home ∨ e.score_away < prev_away then
        attrRetained rest prev_home prev_away
      else
        e :: attrRetained rest e.score_home e.score_away

/-- The running pair `(prev_home, prev_away)` after the attribution walk. -/
def finalPrev : List Ev → Int → Int → Int × Int
  | [], prev_home, prev_away => (prev_home, prev_away)
  | e :: rest, prev_home, prev_away =>
      if e.score_home = prev_home ∧ e.score_away = prev_away then
        finalPrev rest prev_home prev_away
      else if e.score_home < prev_home ∨ e.score_away < prev_away then
        finalPrev rest prev_home prev_away
      else
        finalPrev rest e.score_home e.score_away

/-- A run record emitted by `compute_scoring_runs`. -/
structure RunRec where
  team : String
  opponent : String
  run_points : Int
  game_code : String
deriving DecidableEq, Repr

/-- Python truthiness of `current_run_team` (a string or `None`). -/
def truthyTeam : Option String → Bool
  | none => false
  | some s => s ≠ ""

/-- Closing a run (pbp_analysis.py lines 528-536 and 542-550): the run is
emitted iff its points reach `min_run` and `current_run_team` is truthy;
the opponent is the away team when the run's team equals the home team,
the home team otherwise. -/
def closeRun (min_run : Int) (home_team away_team game_code : String)
    (team : Option String) (pts : Int) : List RunRec :=
  if pts ≥ min_run ∧ truthyTeam team then
    match team with
    | some t =>
        [{ team := t
           opponent := if t = home_team then away_team else home_team
           run_points := pts
           game_code := game_code }]
    | none => []
  else []

/-- The run state machine of `compute_scoring_runs`
(pbp_analysis.py lines 518-550): state `(current_run_team,
current_run_points)`; a change by the current team accumulates; a change by
the other team closes the run (emitting it iff it reaches `min_run`) and
restarts; the final open run is closed at stream end under the same rule. -/
def runsLoop (min_run : Int) (home_team away_team game_code : String) :
    List (Side × Int) → Option String → Int → List RunRec
  | [], team, pts => closeRun min_run home_team away_team game_code team pts
  | (side, p) :: rest, team, pts =>
      let scoring_team := match side with
        | Side.home => home_team
        | Side.away => away_team
      if some scoring_team = team then
        runsLoop min_run home_team away_team game_code rest team (pts + p)
      else
        closeRun min_run home_team away_team game_code team pts ++
          runsLoop min_run home_team away_team game_code rest (some scoring_team) p

/-- The run records of one game: sort by `total_seconds`, read the teams
off the first row, attribute score deltas, and run the state machine. -/
def gameRuns (min_run : Int) (evts : List Ev) : List RunRec :=
  match sortRunsEv evts with
  | [] => []
  | e0 :: rest =>
      runsLoop min_run e0.home_team e0.away_team e0.game_code
        (score_changes (e0 :: rest) 0 0) none 0

/-- The corruption filter of `compute_comeback_stats`
(pbp_analysis.py lines 619-633): keep an event iff both its scores are at
least the previous kept event's scores minus 1 (a tolerance for minor
errors); the previous-kept pair only advances on kept events. -/
def filterValidFrom : List Ev → Int → Int → List Ev
  | [], _, _ => []
  | e :: rest, prev_home, prev_away =>
      if e.score_home ≥ prev_home - 1 ∧ e.score_away ≥ prev_away - 1 then
        e :: filterValidFrom rest e.score_home e.score_away
      else
        filterValidFrom rest prev_home prev_away

/-- The corruption filter with the source's initialisation: the first event
is always valid and seeds the previous-kept pair. -/
def validFilter : List Ev → List Ev
  | [] => []
  | e :: rest => e :: filterValidFrom rest e.score_home e.score_away

/-- State of the deficit-tracking loops of `compute_comeback_stats`. -/
structure DefState where
  maxDef : Int
  defTime : Int
  defQuarter : Int
  cameBack : Bool
deriving DecidableEq, Repr

/-- The per-event update of the home deficit tracker
(pbp_analysis.py lines 660-664): if `gap < -min_deficit` and `|gap|`
exceeds the tracked maximum, record the new maximum with its time and
quarter. -/
def homeUpd (min_deficit : Int) (e : Ev) (s : DefState) : DefState :=
  if e.gap < -min_deficit ∧ |e.gap| > s.maxDef then
    { s with maxDef := |e.gap|, defTime := e.total_seconds,
             defQuarter := e.quarter }
  else s

/-- Home-team deficit loop (pbp_analysis.py lines 652-667): update the
tracked maximum on each event; then, if the tracked maximum has reached
`min_deficit` and `gap >= -comeback_threshold`, set the comeback flag and
break. -/
def homeLoop (min_deficit comeback_threshold : Int) :
    List Ev → DefState → DefState
  | [], s => s
  | e :: rest, s =>
      if (homeUpd min_deficit e s).maxDef ≥ min_deficit ∧
          e.gap ≥ -comeback_threshold then
        { homeUpd min_deficit e s with cameBack := true }
      else homeLoop min_deficit comeback_threshold rest (homeUpd min_deficit e s)

/-- The per-event update of the away deficit tracker
(pbp_analysis.py lines 729-733): a positive gap is an away deficit. -/
def awayUpd (min_deficit : Int) (e : Ev) (s : DefState) : DefState :=
  if e.gap > min_deficit ∧ e.gap > s.maxDef then
    { s with maxDef := e.gap, defTime := e.total_seconds,
             defQuarter := e.quarter }
  else s

/-- Away-team deficit loop (pbp_analysis.py lines 721-736), the mirror of
`homeLoop`. -/
def awayLoop (min_deficit comeback_threshold : Int) :
    List Ev → DefState → DefState
  | [], s => s
  | e :: rest, s =>
      if (awayUpd min_deficit e s).maxDef ≥ min_deficit ∧
          e.gap ≤ comeback_threshold then
        { awayUpd min_deficit e s with cameBack := true }
      else awayLoop min_deficit comeback_threshold rest (awayUpd min_deficit e s)

/-- State of the best-gap-after scans of `compute_comeback_stats`. -/
structure BestState where
  best : Int
  bestTime : Int
  bestQuarter : Int
  passed : Bool
deriving DecidableEq, Repr

/-- Best-gap-after scan for the home team (pbp_analysis.py lines 670-685):
`passed` turns true at the first event whose time is at or past the
max-deficit time; past that point the largest gap (and its time and
quarter) is recorded. -/
def bestAfterHome (defTime : Int) : List Ev → BestState → BestState
  | [], b => b
  | e :: rest, b =>
      let passed := b.passed || decide (e.total_seconds ≥ defTime)
      let b1 :=
        if passed ∧ e.gap > b.best then
          { best := e.gap, bestTime := e.total_seconds,
            bestQuarter := e.quarter, passed := passed }
        else { b with passed := passed }
      bestAfterHome defTime rest b1

/-- Best-gap-after scan for the away team (pbp_analysis.py lines 739-754):
past the max-deficit time the smallest gap is recorded (a negative gap
means the away team leads). -/
def bestAfterAway (defTime : Int) : List Ev → BestState → BestState
  | [], b => b
  | e :: rest, b =>
      let passed := b.passed || decide (e.total_seconds ≥ defTime)
      let b1 :=
        if passed ∧ e.gap < b.best then
          { best := e.gap, bestTime := e.total_seconds,
            bestQuarter := e.quarter, passed := passed }
        else { b with passed := passed }
      bestAfterAway defTime rest b1

/-- Python's `t // 60` and `t % 60`, the numbers formatted into the
`"m:ss"` time strings of the records (string formatting itself carries no
further information). -/
def mmss (t : Int) : Int × Int := (Int.fdiv t 60, Int.fmod t 60)

/-- A `ComebackEpisode` detail record (one element of `comeback_data`). -/
structure CBRec where
  team : String
  opponent : String
  deficit : Int
  deficit_time : Int × Int
  deficit_quarter : Int
  best_after : Int
  best_after_time : Int × Int
  best_after_quarter : Int
  final_score : Int × Int
  won : Bool
  game_code : String
deriving DecidableEq, Repr

/-- A `BlownLead` detail record (one element of `blown_lead_data`). -/
structure BLRec where
  team : String
  opponent : String
  max_lead : Int
  max_lead_time : Int × Int
  max_lead_quarter : Int
  worst_after : Int
  worst_after_time : Int × Int
  worst_after_quarter : Int
  final_score : Int × Int
  lost : Bool
  game_code : String
deriving DecidableEq, Repr

/-- The home-comeback block of `compute_comeback_stats`
(pbp_analysis.py lines 652-719): when the home deficit loop ends with a
tracked maximum at least `min_deficit` and the comeback flag set, one
`ComebackEpisode` for the home team and its mirrored `BlownLead` for the
away team are appended together. -/
def homePair (min_deficit comeback_threshold : Int) (f : List Ev)
    (home_team away_team game_code : String) (final_home final_away : Int)
    (home_won : Bool) : Option (CBRec × BLRec) :=
  let s := homeLoop min_deficit comeback_threshold f ⟨0, 0, 0, false⟩
  if s.maxDef ≥ min_deficit ∧ s.cameBack then
    let b := bestAfterHome s.defTime f ⟨-s.maxDef, s.defTime, s.defQuarter, false⟩
    some
      ({ team := home_team, opponent := away_team, deficit := s.maxDef
         deficit_time := mmss s.defTime, deficit_quarter := s.defQuarter
         best_after := b.best, best_after_time := mmss b.bestTime
         best_after_quarter := b.bestQuarter
         final_score := (final_home, final_away), won := home_won
         game_code := game_code },
       { team := away_team, opponent := home_team, max_lead := s.maxDef
         max_lead_time := mmss s.defTime, max_lead_quarter := s.defQuarter
         worst_after := -b.best, worst_after_time := mmss b.bestTime
         worst_after_quarter := b.bestQuarter
         final_score := (final_away, final_home), lost := home_won
         game_code := game_code })
  else none

/-- The away-comeback block of `compute_comeback_stats`
(pbp_analysis.py lines 721-788); the comeback's `best_after` is the negated
internal best gap, the blown lead's `worst_after` the raw one. -/
def awayPair (min_deficit comeback_threshold : Int) (f : List Ev)
    (home_team away_team game_code : String) (final_home final_away : Int)
    (home_won : Bool) : Option (CBRec × BLRec) :=
  let s := awayLoop min_deficit comeback_threshold f ⟨0, 0, 0, false⟩
  if s.maxDef ≥ min_deficit ∧ s.cameBack then
    let b := bestAfterAway s.defTime f ⟨s.maxDef, s.defTime, s.defQuarter, false⟩
    some
      ({ team := away_team, opponent := home_team, deficit := s.maxDef
         deficit_time := mmss s.defTime, deficit_quarter := s.defQuarter
         best_after := -b.best, best_after_time := mmss b.bestTime
         best_after_quarter := b.bestQuarter
         final_score := (final_away, final_home), won := !home_won
         game_code := game_code },
       { team := home_team, opponent := away_team, max_lead := s.maxDef
         max_lead_time := mmss s.defTime, max_lead_quarter := s.defQuarter
         worst_after := b.best, worst_after_time := mmss b.bestTime
         worst_after_quarter := b.bestQuarter
         final_score := (final_home, final_away), lost := !home_won
         game_code := game_code })
  else none

/-- The per-game body of `compute_comeback_stats`
(pbp_analysis.py lines 608-788): sort by time and total score, apply the
corruption filter, read teams off the first kept row and the final score
off the last, and run the home and away comeback blocks. -/
def gameRecords (min_deficit comeback_threshold : Int) (evts : List Ev) :
    List CBRec × List BLRec :=
  match evts with
  | [] => ([], [])
  | _ :: _ =>
      match validFilter (sortCBEv evts) with
      | [] => ([], [])
      | e0 :: frest =>
          let f := e0 :: frest
          let home_team := e0.home_team
          let away_team := e0.away_team
          let game_code := e0.game_code
          let last := List.getLastD f e0
          let final_home := last.score_home
          let final_away := last.score_away
          let home_won := decide (final_home - final_away > 0)
          let hp := homePair min_deficit comeback_threshold f home_team
            away_team game_code final_home final_away home_won
          let ap := awayPair min_deficit comeback_threshold f home_team
            away_team game_code final_home final_away home_won
          ((hp.map Prod.fst).toList ++ (ap.map Prod.fst).toList,
           (hp.map Prod.snd).toList ++ (ap.map Prod.snd).toList)

/-- The shape of the value `compute_comeback_stats` returns: a 2-tuple of
empty frames, or a 3-tuple whose detail frames hold the comeback and
blown-lead records (the aggregate frame is a groupby over the same
records). -/
inductive CBResult
  | pair : CBResult
  | triple (comeback_details : List CBRec) (blown_details : List BLRec) : CBResult
deriving DecidableEq, Repr

/-- Whether a `CBResult` is the 2-tuple shape. -/
def CBResult.isPair : CBResult → Bool
  | CBResult.pair => true
  | CBResult.triple _ _ => false

/-- Top level of `compute_comeback_stats` (pbp_analysis.py lines 586-835):
`None` or an empty frame returns the 2-tuple of empty frames; otherwise the
per-game records are collected over the distinct game codes in order of
first appearance, and a 3-tuple is returned — with three empty frames when
no comeback was found, with the aggregate and the two detail frames
otherwise. -/
def compute_comeback_stats (pbp : Option (List Ev))
    (min_deficit comeback_threshold : Int) : CBResult :=
  match pbp with
  | none => CBResult.pair
  | some evts =>
      if evts.isEmpty then CBResult.pair
      else
        let gcs := (evts.map Ev.game_code).eraseDups
        let recs := gcs.map fun gc =>
          gameRecords min_deficit comeback_threshold
            (evts.filter fun e => e.game_code = gc)
        CBResult.triple (recs.flatMap Prod.fst) (recs.flatMap Prod.snd)

/-- Sort key of `enrich_pbp_dataframe`'s attribution pass
(scraper.py line 554) within one game:
`sort_values(['total_seconds', 'score_home', 'score_away'])`. -/
@[reducible] def enLe (a b : Ev) : Prop :=
  a.total_seconds < b.total_seconds ∨
    (a.total_seconds = b.total_seconds ∧
      (a.score_home < b.score_home ∨
        (a.score_home = b.score_home ∧ a.score_away ≤ b.score_away)))

instance : DecidableRel enLe := fun _ _ => inferInstance

/-- Per-event points of `enrich_pbp_dataframe`
(scraper.py lines 556-564): the previous row's scores via `shift(1)` with
`fillna(0)`, each delta clipped at 0, summed. -/
def enrichPoints : List Ev → Int → Int → List Int
  | [], _, _ => []
  | e :: rest, prev_home, prev_away =>
      (max (e.score_home - prev_home) 0 + max (e.score_away - prev_away) 0) ::
        enrichPoints rest e.score_home e.score_away

/-- The `points` column of one game after `enrich_pbp_dataframe`. -/
def enrichGamePoints (evts : List Ev) : List Int :=
  enrichPoints (List.insertionSort enLe evts) 0 0

/-! Relations used to state the monotonicity properties. -/

/-- Both scores are at least the previous kept event's scores minus 1. -/
@[reducible] def tolStep (p q : Ev) : Prop :=
  p.score_home - 1 ≤ q.score_home ∧ p.score_away - 1 ≤ q.score_away

/-- Both scores are non-decreasing. -/
@[reducible] def monoStep (p q : Ev) : Prop :=
  p.score_home ≤ q.score_home ∧ p.score_away ≤ q.score_away

/-- Elapsed time is non-decreasing. -/
@[reducible] def tsStep (p q : Ev) : Prop :=
  p.total_seconds ≤ q.total_seconds

/-- The mirror relation between a comeback record and a blown-lead record:
swapped teams, equal size, matching timestamps and quarters, opposite
signed after-gaps, and `lost` equal to the comeback's `won`. -/
def mirrored (c : CBRec) (b : BLRec) : Prop :=
  b.team = c.opponent ∧ b.opponent = c.team ∧ b.max_lead = c.deficit ∧
    b.max_lead_time = c.deficit_time ∧ b.max_lead_quarter = c.deficit_quarter ∧
    b.worst_after = -c.best_after ∧ b.worst_after_time = c.best_after_time ∧
    b.worst_after_quarter = c.best_after_quarter ∧ b.lost = c.won ∧
    b.game_code = c.game_code

/-- The team a scoring side resolves to. -/
def sideTeam (home_team away_team : String) : Side → String
  | Side.home => home_team
  | Side.away => away_team

/-- Closing a run as the specification describes it: a `Run` is emitted
iff the accumulated points reach `min_run`; no record when no run is
open. -/
def specClose (min_run : Int) (home_team away_team game_code : String) :
    Option Side → Int → List RunRec
  | none, _ => []
  | some Side.home, pts =>
      if pts ≥ min_run then
        [{ team := home_team, opponent := away_team, run_points := pts,
           game_code := game_code }]
      else []
  | some Side.away, pts =>
      if pts ≥ min_run then
        [{ team := away_team, opponent := home_team, run_points := pts,
           game_code := game_code }]
      else []

/-- The run detector exactly as the specification words it: state
`(current side, accumulated points)`; a same-side event accumulates; a
side change closes the previous run — emitting it exactly when the
accumulated points reach `min_run` — and restarts on the new side; at
stream end the final open run is closed under the same rule. -/
def runDetectorSpec (min_run : Int) (home_team away_team game_code : String) :
    List (Side × Int) → Option Side → Int → List RunRec
  | [], side, pts => specClose min_run home_team away_team game_code side pts
  | (s, p) :: rest, side, pts =>
      if some s = side then
        runDetectorSpec min_run home_team away_team game_code rest side (pts + p)
      else
        specClose min_run home_team away_team game_code side pts ++
          runDetectorSpec min_run home_team away_team game_code rest (some s) p

/-- Total points of the run records credited to one team. -/
def runTeamPoints (team : String) (rs : List RunRec) : Int :=
  ((rs.filter fun r => r.team = team).map RunRec.run_points).sum

/-- Total points of the attributed changes on one side. -/
def sideSum (side : Side) : List (Side × Int) → Int
  | [] => 0
  | (s, p) :: rest => (if s = side then p else 0) + sideSum side rest

/-- Total points of the attributed changes credited to one team name. -/
def teamSum (home_team away_team team : String) : List (Side × Int) → Int
  | [] => 0
  | (s, p) :: rest =>
      (if sideTeam home_team away_team s = team then p else 0) +
        teamSum home_team away_team team rest

/-- Whether the scores of a stream are non-decreasing starting from a
given pair. -/
def scoresMono : Int × Int → List Ev → Bool
  | _, [] => true
  | p, e :: rest =>
      decide (p.1 ≤ e.score_home ∧ p.2 ≤ e.score_away) &&
        scoresMono (e.score_home, e.score_away) rest

/-- The scores of the last event of a list, with a default for the empty
list. -/
def lastScores : List Ev → Int × Int → Int × Int
  | [], d => d
  | e :: rest, _ => lastScores rest (e.score_home, e.score_away)

/-- The home score of the last event of a game's stream (a team's final
score in a well-formed game). -/
def finalHomeScore (l : List Ev) : Int := (lastScores l (0, 0)).1

/-- The away score of the last event of a game's stream. -/
def finalAwayScore (l : List Ev) : Int := (lastScores l (0, 0)).2

theorem filterValidFrom_sublist :
    ∀ (l : List Ev) (ph pa : Int), (filterValidFrom l ph pa).Sublist l
  | [], _, _ => List.Sublist.refl []
  | e :: rest, ph, pa => by
      by_cases hk : e.score_home ≥ ph - 1 ∧ e.score_away ≥ pa - 1
      · simp only [filterValidFrom, if_pos hk]
        exact (filterValidFrom_sublist rest e.score_home e.score_away).cons₂ e
      · simp only [filterValidFrom, if_neg hk]
        exact (filterValidFrom_sublist rest ph pa).cons e

theorem validFilter_sublist (l : List Ev) : (validFilter l).Sublist l := by
  cases l with
  | nil => exact List.Sublist.refl []
  | cons e rest =>
      exact (filterValidFrom_sublist rest e.score_home e.score_away).cons₂ e

theorem attrRetained_sublist :
    ∀ (l : List Ev) (ph pa : Int), (attrRetained l ph pa).Sublist l
  | [], _, _ => List.Sublist.refl []
  | e :: rest, ph, pa => by
      by_cases h1 : e.score_home = ph ∧ e.score_away = pa
      · simp only [attrRetained, if_pos h1]
        exact (attrRetained_sublist rest ph pa).cons e
      · by_cases h2 : e.score_home < ph ∨ e.score_away < pa
        · simp only [attrRetained, if_neg h1, if_pos h2]
          exact (attrRetained_sublist rest ph pa).cons e
        · simp only [attrRetained, if_neg h1, if_neg h2]
          exact (attrRetained_sublist rest e.score_home e.score_away).cons₂ e

theorem filterValidFrom_chain :
    ∀ (l : List Ev) (ph pa : Int),
      List.Chain' tolStep (filterValidFrom l ph pa) ∧
      (∀ f, (filterValidFrom l ph pa).head? = some f →
        ph - 1 ≤ f.score_home ∧ pa - 1 ≤ f.score_away)
  | [], ph, pa => by
      constructor
      · exact List.chain'_nil
      · intro f hf
        simp [filterValidFrom] at hf
  | e :: rest, ph, pa => by
      by_cases hk : e.score_home ≥ ph - 1 ∧ e.score_away ≥ pa - 1
      · have ih := filterValidFrom_chain rest e.score_home e.score_away
        simp only [filterValidFrom, if_pos hk]
        constructor
        · exact List.chain'_cons'.mpr ⟨fun f hf => ih.2 f hf, ih.1⟩
        · intro f hf
          simp only [List.head?_cons, Option.some.injEq] at hf
          subst hf
          exact ⟨hk.1, hk.2⟩
      · have ih := filterValidFrom_chain rest ph pa
        simp only [filterValidFrom, if_neg hk]
        exact ih

theorem attrRetained_chain :
    ∀ (l : List Ev) (ph pa : Int),
      List.Chain' monoStep (attrRetained l ph pa) ∧
      (∀ f, (attrRetained l ph pa).head? = some f →
        ph ≤ f.score_home ∧ pa ≤ f.score_away)
  | [], ph, pa => by
      constructor
      · exact List.chain'_nil
      · intro f hf
        simp [attrRetained] at hf
  | e :: rest, ph, pa => by
      by_cases h1 : e.score_home = ph ∧ e.score_away = pa
      · have ih := attrRetained_chain rest ph pa
        simp only [attrRetained, if_pos h1]
        exact ih
      · by_cases h2 : e.score_home < ph ∨ e.score_away < pa
        · have ih := attrRetained_chain rest ph pa
          simp only [attrRetained, if_neg h1, if_pos h2]
          exact ih
        · have ih := attrRetained_chain rest e.score_home e.score_away
          have hkeep : ph ≤ e.score_home ∧ pa ≤ e.score_away := by
            push_neg at h2
            exact ⟨h2.1, h2.2⟩
          simp only [attrRetained, if_neg h1, if_neg h2]
          constructor
          · refine List.chain'_cons'.mpr ⟨fun f hf => ?_, ih.1⟩
            have hb := ih.2 f hf
            exact ⟨hb.1, hb.2⟩
          · intro f hf
            simp only [List.head?_cons, Option.some.injEq] at hf
            subst hf
            exact hkeep

theorem sortCBEv_pairwise_ts (l : List Ev) :
    List.Pairwise tsStep (sortCBEv l) :=
  (List.sorted_insertionSort cbLe l).imp fun hab =>
    hab.elim (fun h => le_of_lt h) (fun h => le_of_eq h.1)

theorem sortRunsEv_pairwise_ts (l : List Ev) :
    List.Pairwise tsStep (sortRunsEv l) :=
  (List.sorted_insertionSort runsLe l).imp fun hab => hab

/-! Claim C1. -/

/-- C1 counterexample: an overtime event (quarter 5) at 8:00 with gap 0
satisfies the claimed formula `quarter >= 4 AND time_seconds >= 480 AND
|gap| <= 5`, yet the flag the pipeline leaves on the event is `false`,
because `fix_pbp_time_format` recomputes clutch with `quarter == 4`. -/
theorem clutch_overtime_counterexample :
    (pipelineRow 5 "8:00" 0 0).clutch = false ∧
    ((5 : Int) ≥ 4 ∧ (pipelineRow 5 "8:00" 0 0).time_seconds ≥ 480 ∧
      |(0 : Int) - 0| ≤ 5) := by decide

/-- C1 amended: after the full pipeline (enrichment, then the loader's
`fix_pbp_time_format`, which rewrites the flag) the clutch flag equals
`(quarter == 4) AND (time_seconds >= 480) AND (|gap| <= 5)`; the stated
boundary behaviour holds: `(4, 480, 5)` is clutch while `479` seconds or a
gap of `6` is not; the claimed `quarter >= 4` form is only the
intermediate flag `enrich_pbp_dataframe` computes before the rewrite. -/
theorem clutch_pipeline_amended (quarter : Int) (time : String) (h a : Int) :
    ((pipelineRow quarter time h a).clutch =
      (decide (quarter = 4) &&
        decide ((pipelineRow quarter time h a).time_seconds ≥ 480) &&
        decide (|h - a| ≤ 5))) ∧
    (pipelineRow 4 "8:00" 5 0).clutch = true ∧
    (pipelineRow 4 "7:59" 5 0).clutch = false ∧
    (pipelineRow 4 "8:00" 6 0).clutch = false ∧
    (enrichRow quarter time h a).clutch =
      (decide (quarter ≥ 4) &&
        decide ((enrichRow quarter time h a).time_seconds ≥ 480) &&
        decide (|h - a| ≤ 5)) :=
  ⟨rfl, by decide, by decide, by decide, rfl⟩

/-! Claim C4. -/

/-- C4: time normalisation maps a parsed clock value of exactly 0 to 600
and leaves every other parsed value unchanged (also across the loader's
second pass), the derived total equals `(quarter - 1) * 600 +
time_seconds`, and a raw clock of `"00:00"` (which parses to 0) in Q4
yields `time_seconds = 600`, not 0. -/
theorem time_normalization_confirmed (quarter : Int) (time : String)
    (h a : Int) :
    (enrichRow quarter time h a).time_seconds =
      (if time_to_seconds time = 0 then 600 else time_to_seconds time) ∧
    (pipelineRow quarter time h a).time_seconds =
      (enrichRow quarter time h a).time_seconds ∧
    (enrichRow quarter time h a).total_seconds =
      (quarter - 1) * 600 + (enrichRow quarter time h a).time_seconds ∧
    (pipelineRow quarter time h a).total_seconds =
      (quarter - 1) * 600 + (pipelineRow quarter time h a).time_seconds ∧
    time_to_seconds "00:00" = 0 ∧
    (pipelineRow 4 "00:00" 0 0).time_seconds = 600 := by
  refine ⟨rfl, ?_, rfl, rfl, by decide, by decide⟩
  by_cases h0 : time_to_seconds time = 0 <;>
    simp [pipelineRow, fix_pbp_time_format, enrichRow, h0]

/-! Claim C5. -/

/-- C5 counterexample: a raw event whose score text is `"59"` — not a
numeric home-away pair — is not dropped: the normaliser keeps it with the
fabricated score pair `(0, 0)`. -/
theorem malformed_score_counterexample :
    readEventScore (some "59") = some ((0 : Int), 0) ∧
    (splitChars '-' "59".toList []).length = 1 := by decide

/-- C5 amended: the normaliser drops an event exactly when its score
element is missing or its score text splits on `-` into exactly two parts
of which one is non-numeric; a score text with any other number of parts
is kept with scores `(0, 0)`, and an empty (unparseable) clock is kept
with `time_seconds` 600 via the 0-to-600 remap. -/
theorem normalizer_drop_amended (scoreText : Option String) (q h a : Int) :
    (readEventScore scoreText = none ↔
      scoreText = none ∨
        ∃ x y, splitChars '-' (Option.getD scoreText "").toList [] = [x, y] ∧
          (pyIntChars x = none ∨ pyIntChars y = none)) ∧
    (enrichRow q "" h a).time_seconds = 600 ∧
    (pipelineRow q "" h a).time_seconds = 600 := by
  refine ⟨?_, rfl, rfl⟩
  cases scoreText with
  | none => simp [readEventScore]
  | some s =>
      simp only [readEventScore, Option.getD]
      rcases hs : splitChars '-' s.toList [] with _ | ⟨x, _ | ⟨y, _ | _⟩⟩ <;>
        simp only [hs]
      · simp
      · simp
      · cases hx : pyIntChars x <;> cases hy : pyIntChars y <;> simp [hx, hy]
        · exact ⟨x, y, ⟨rfl, rfl⟩, Or.inl hx⟩
        · exact ⟨x, y, ⟨rfl, rfl⟩, Or.inl hx⟩
        · exact ⟨x, y, ⟨rfl, rfl⟩, Or.inr hy⟩
      · simp

/-! Claim C10. -/

/-- C10: `compute_comeback_stats` returns the 2-tuple of empty frames
exactly on `None` or an empty frame; every non-empty input — including one
that produces no comeback records — returns a 3-tuple, so a caller
unpacking three values fails exactly on `None`/empty input. -/
theorem comeback_return_arity (pbp : Option (List Ev)) (md ct : Int) :
    (compute_comeback_stats pbp md ct).isPair = true ↔
      pbp = none ∨ pbp = some [] := by
  cases pbp with
  | none => simp [compute_comeback_stats, CBResult.isPair]
  | some evts =>
      cases evts with
      | nil => simp [compute_comeback_stats, CBResult.isPair]
      | cons e rest => simp [compute_comeback_stats, CBResult.isPair]

/-! Claim C8. -/

theorem homePair_mirror (md ct : Int) (f : List Ev) (ht aw gc : String)
    (fh fa : Int) (w : Bool) (c : CBRec) (b : BLRec)
    (h : homePair md ct f ht aw gc fh fa w = some (c, b)) : mirrored c b := by
  unfold homePair at h
  simp only [] at h
  split at h
  · rw [Option.some.injEq, Prod.mk.injEq] at h
    obtain ⟨hc, hb⟩ := h
    subst hc
    subst hb
    exact ⟨rfl, rfl, rfl, rfl, rfl, rfl, rfl, rfl, rfl, rfl⟩
  · exact absurd h (by simp)

theorem awayPair_mirror (md ct : Int) (f : List Ev) (ht aw gc : String)
    (fh fa : Int) (w : Bool) (c : CBRec) (b : BLRec)
    (h : awayPair md ct f ht aw gc fh fa w = some (c, b)) : mirrored c b := by
  unfold awayPair at h
  simp only [] at h
  split at h
  · rw [Option.some.injEq, Prod.mk.injEq] at h
    obtain ⟨hc, hb⟩ := h
    subst hc
    subst hb
    exact ⟨rfl, rfl, rfl, rfl, rfl, (neg_neg _).symm, rfl, rfl, rfl, rfl⟩
  · exact absurd h (by simp)

theorem pairs_mirror (hp ap : Option (CBRec × BLRec))
    (h1 : ∀ c b, hp = some (c, b) → mirrored c b)
    (h2 : ∀ c b, ap = some (c, b) → mirrored c b) :
    List.Forall₂ mirrored
      ((hp.map Prod.fst).toList ++ (ap.map Prod.fst).toList)
      ((hp.map Prod.snd).toList ++ (ap.map Prod.snd).toList) := by
  cases hp with
  | none =>
      cases ap with
      | none => exact List.Forall₂.nil
      | some p => exact List.Forall₂.cons (h2 p.1 p.2 rfl) List.Forall₂.nil
  | some p =>
      cases ap with
      | none => exact List.Forall₂.cons (h1 p.1 p.2 rfl) List.Forall₂.nil
      | some p' =>
          exact List.Forall₂.cons (h1 p.1 p.2 rfl)
            (List.Forall₂.cons (h2 p'.1 p'.2 rfl) List.Forall₂.nil)

/-- C8: within a game the comeback and blown-lead detail lists are emitted
in mirrored pairs — same length, and the i-th blown lead is the mirror of
the i-th comeback: team and opponent swapped, `max_lead` equal to the
`deficit`, identical timestamps and quarters, opposite-signed after-gaps,
and `lost` equal to `won`; a comeback record for a team is accompanied by
exactly the one blown lead appended with it. -/
theorem comeback_blown_mirror (md ct : Int) (evts : List Ev) :
    List.Forall₂ mirrored (gameRecords md ct evts).1
      (gameRecords md ct evts).2 := by
  unfold gameRecords
  cases evts with
  | nil => exact List.Forall₂.nil
  | cons e rest =>
      cases hf : validFilter (sortCBEv (e :: rest)) with
      | nil => exact List.Forall₂.nil
      | cons e0 frest =>
          exact pairs_mirror _ _
            (fun c b h => homePair_mirror _ _ _ _ _ _ _ _ _ c b h)
            (fun c b h => awayPair_mirror _ _ _ _ _ _ _ _ _ c b h)

/-! Claim C3. -/

/-- C3 counterexample: the comeback corruption filter has a tolerance of
one point, so after filtering a game whose `score_home` drops from 10 to
9 both events are retained and the retained `score_home` sequence is not
non-decreasing. -/
theorem monotone_filter_counterexample :
    validFilter (sortCBEv
      [⟨"g", 1, 10, 10, 0, 10, "H", "A"⟩,
       ⟨"g", 1, 20, 9, 0, 9, "H", "A"⟩]) =
      [⟨"g", 1, 10, 10, 0, 10, "H", "A"⟩,
       ⟨"g", 1, 20, 9, 0, 9, "H", "A"⟩] ∧
    (validFilter (sortCBEv
      [⟨"g", 1, 10, 10, 0, 10, "H", "A"⟩,
       ⟨"g", 1, 20, 9, 0, 9, "H", "A"⟩])).map Ev.score_home = [10, 9] ∧
    (9 : Int) < 10 := by decide

/-- C3 amended: after `compute_comeback_stats`' corruption filter the
retained scores may decrease by at most one point per step (the filter's
explicit tolerance) rather than being non-decreasing, while
`total_seconds` is non-decreasing; in `compute_scoring_runs` the events
retained for score-delta attribution do have non-decreasing scores and
non-decreasing `total_seconds`. -/
theorem monotonicity_amended (l : List Ev) :
    List.Chain' tolStep (validFilter l) ∧
    List.Chain' tsStep (validFilter (sortCBEv l)) ∧
    List.Chain' monoStep (attrRetained (sortRunsEv l) 0 0) ∧
    List.Chain' tsStep (attrRetained (sortRunsEv l) 0 0) := by
  refine ⟨?_, ?_, ?_, ?_⟩
  · cases l with
    | nil => exact List.chain'_nil
    | cons e rest =>
        refine List.chain'_cons'.mpr ⟨fun f hf => ?_, ?_⟩
        · exact (filterValidFrom_chain rest e.score_home e.score_away).2 f hf
        · exact (filterValidFrom_chain rest e.score_home e.score_away).1
  · exact ((sortCBEv_pairwise_ts l).sublist (validFilter_sublist _)).chain'
  · exact (attrRetained_chain (sortRunsEv l) 0 0).1
  · exact ((sortRunsEv_pairwise_ts l).sublist (attrRetained_sublist _ 0 0)).chain'

/-! Claim C9. -/

/-- Inserting an event whose scores regress below the running pair into
the attribution stream changes nothing: the event is excluded without
advancing the pair, and every later event is attributed against the same
running scores. -/
theorem score_changes_skip_insert :
    ∀ (l1 : List Ev) (ph pa : Int) (e : Ev) (l2 : List Ev),
      (e.score_home < (finalPrev l1 ph pa).1 ∨
        e.score_away < (finalPrev l1 ph pa).2) →
      score_changes (l1 ++ e :: l2) ph pa = score_changes (l1 ++ l2) ph pa
  | [], ph, pa, e, l2, hdec => by
      simp only [finalPrev] at hdec
      have h1 : ¬(e.score_home = ph ∧ e.score_away = pa) := by
        rintro ⟨h, h'⟩
        rw [h, h'] at hdec
        omega
      simp only [List.nil_append, score_changes, if_neg h1, if_pos hdec]
  | f :: l1', ph, pa, e, l2, hdec => by
      simp only [List.cons_append, score_changes]
      by_cases h1 : f.score_home = ph ∧ f.score_away = pa
      · simp only [if_pos h1]
        refine score_changes_skip_insert l1' ph pa e l2 ?_
        simpa only [finalPrev, if_pos h1] using hdec
      · simp only [if_neg h1]
        by_cases h2 : f.score_home < ph ∨ f.score_away < pa
        · simp only [if_pos h2]
          refine score_changes_skip_insert l1' ph pa e l2 ?_
          simpa only [finalPrev, if_neg h1, if_pos h2] using hdec
        · simp only [if_neg h2, List.append_eq]
          have ih := score_changes_skip_insert l1' f.score_home f.score_away e l2
            (by simpa only [finalPrev, if_neg h1, if_neg h2] using hdec)
          rw [ih]

/-- C9 counterexample: in `enrich_pbp_dataframe` the per-event `points`
column is the clipped delta from the immediately preceding row, so with
`score_home` going 70, 68, 70 the return to 70 is attributed 2 points —
not 0 as the claim requires for deltas taken from the last valid running
score. -/
theorem enrich_attribution_counterexample :
    enrichGamePoints
      [⟨"g", 1, 10, 70, 50, 20, "H", "A"⟩,
       ⟨"g", 1, 20, 68, 50, 18, "H", "A"⟩,
       ⟨"g", 1, 30, 70, 50, 20, "H", "A"⟩] = [120, 0, 2] ∧
    (2 : Int) ≠ 0 := by decide

/-- C9 amended: the claimed behaviour is exactly that of the attribution
pass of `compute_scoring_runs`: a non-monotonic event is excluded without
advancing the running scores, so removing it changes no attribution, a
dip and the return to the previous score attribute nothing, and a later
genuine score is attributed as the delta from the last valid running
score; `enrich_pbp_dataframe`'s `points` column instead uses the
immediately preceding row. -/
theorem attribution_exclusion_amended (l1 l2 : List Ev) (e : Ev)
    (ph pa : Int)
    (hdec : e.score_home < (finalPrev l1 ph pa).1 ∨
      e.score_away < (finalPrev l1 ph pa).2) :
    score_changes (l1 ++ e :: l2) ph pa = score_changes (l1 ++ l2) ph pa ∧
    score_changes
      [⟨"g", 1, 20, 68, 50, 18, "H", "A"⟩,
       ⟨"g", 1, 30, 70, 50, 20, "H", "A"⟩] 70 50 = [] ∧
    score_changes
      [⟨"g", 1, 10, 70, 50, 20, "H", "A"⟩,
       ⟨"g", 1, 20, 68, 50, 18, "H", "A"⟩,
       ⟨"g", 1, 30, 70, 50, 20, "H", "A"⟩,
       ⟨"g", 1, 40, 72, 50, 22, "H", "A"⟩] 0 0 = [(Side.home, 2)] :=
  ⟨score_changes_skip_insert l1 ph pa e l2 hdec, by decide, by decide⟩

/-- C9 witness: the amended theorem applied to the dip event 68 inserted
after a valid event at 70. -/
theorem attribution_exclusion_witness :
    ((⟨"g", 1, 20, 68, 50, 18, "H", "A"⟩ : Ev).score_home <
        (finalPrev [⟨"g", 1, 10, 70, 50, 20, "H", "A"⟩] 0 0).1 ∨
      (⟨"g", 1, 20, 68, 50, 18, "H", "A"⟩ : Ev).score_away <
        (finalPrev [⟨"g", 1, 10, 70, 50, 20, "H", "A"⟩] 0 0).2) ∧
    (score_changes
        ([⟨"g", 1, 10, 70, 50, 20, "H", "A"⟩] ++
          (⟨"g", 1, 20, 68, 50, 18, "H", "A"⟩ : Ev) ::
            [⟨"g", 1, 30, 72, 50, 22, "H", "A"⟩]) 0 0 =
      score_changes
        ([⟨"g", 1, 10, 70, 50, 20, "H", "A"⟩] ++
          [⟨"g", 1, 30, 72, 50, 22, "H", "A"⟩]) 0 0 ∧
    score_changes
      [⟨"g", 1, 20, 68, 50, 18, "H", "A"⟩,
       ⟨"g", 1, 30, 70, 50, 20, "H", "A"⟩] 70 50 = [] ∧
    score_changes
      [⟨"g", 1, 10, 70, 50, 20, "H", "A"⟩,
       ⟨"g", 1, 20, 68, 50, 18, "H", "A"⟩,
       ⟨"g", 1, 30, 70, 50, 20, "H", "A"⟩,
       ⟨"g", 1, 40, 72, 50, 22, "H", "A"⟩] 0 0 = [(Side.home, 2)]) :=
  ⟨by decide,
    attribution_exclusion_amended
      [⟨"g", 1, 10, 70, 50, 20, "H", "A"⟩]
      [⟨"g", 1, 30, 72, 50, 22, "H", "A"⟩]
      ⟨"g", 1, 20, 68, 50, 18, "H", "A"⟩ 0 0 (by decide)⟩

/-! Claim C2. -/

theorem homeUpd_cameBack (md : Int) (e : Ev) (s : DefState) :
    (homeUpd md e s).cameBack = s.cameBack := by
  unfold homeUpd
  split <;> rfl

theorem awayUpd_cameBack (md : Int) (e : Ev) (s : DefState) :
    (awayUpd md e s).cameBack = s.cameBack := by
  unfold awayUpd
  split <;> rfl

theorem homeUpd_maxDef_ge (md : Int) (e : Ev) (s : DefState) :
    (homeUpd md e s).maxDef ≥ md ↔ (s.maxDef ≥ md ∨ e.gap < -md) := by
  have habs : -e.gap ≤ |e.gap| := neg_le_abs e.gap
  unfold homeUpd
  split
  case isTrue h =>
    simp only []
    constructor
    · intro _
      exact Or.inr h.1
    · intro _
      have : md < -e.gap := by omega
      omega
  case isFalse h =>
    constructor
    · exact Or.inl
    · rintro (h' | h')
      · exact h'
      · have h2 : ¬ |e.gap| > s.maxDef := fun hgt => h ⟨h', hgt⟩
        have : md < -e.gap := by omega
        omega

theorem awayUpd_maxDef_ge (md : Int) (e : Ev) (s : DefState) :
    (awayUpd md e s).maxDef ≥ md ↔ (s.maxDef ≥ md ∨ e.gap > md) := by
  unfold awayUpd
  split
  case isTrue h =>
    simp only []
    constructor
    · intro _
      exact Or.inr h.1
    · intro _
      omega
  case isFalse h =>
    constructor
    · exact Or.inl
    · rintro (h' | h')
      · exact h'
      · have h2 : ¬ e.gap > s.maxDef := fun hgt => h ⟨h', hgt⟩
        omega

theorem homeLoop_maxDef_ge (md ct : Int) :
    ∀ (l : List Ev) (s : DefState), s.cameBack = false →
      (homeLoop md ct l s).cameBack = true → (homeLoop md ct l s).maxDef ≥ md
  | [], s, hs, hc => by
      simp only [homeLoop] at hc
      rw [hs] at hc
      cases hc
  | e :: rest, s, hs, hc => by
      simp only [homeLoop] at hc ⊢
      by_cases hbrk : (homeUpd md e s).maxDef ≥ md ∧ e.gap ≥ -ct
      · rw [if_pos hbrk]
        exact hbrk.1
      · rw [if_neg hbrk] at hc ⊢
        exact homeLoop_maxDef_ge md ct rest (homeUpd md e s)
          (by rw [homeUpd_cameBack]; exact hs) hc

theorem awayLoop_maxDef_ge (md ct : Int) :
    ∀ (l : List Ev) (s : DefState), s.cameBack = false →
      (awayLoop md ct l s).cameBack = true → (awayLoop md ct l s).maxDef ≥ md
  | [], s, hs, hc => by
      simp only [awayLoop] at hc
      rw [hs] at hc
      cases hc
  | e :: rest, s, hs, hc => by
      simp only [awayLoop] at hc ⊢
      by_cases hbrk : (awayUpd md e s).maxDef ≥ md ∧ e.gap ≤ ct
      · rw [if_pos hbrk]
        exact hbrk.1
      · rw [if_neg hbrk] at hc ⊢
        exact awayLoop_maxDef_ge md ct rest (awayUpd md e s)
          (by rw [awayUpd_cameBack]; exact hs) hc

theorem homeLoop_cameBack_iff (md ct : Int) :
    ∀ (l : List Ev) (s : DefState), s.cameBack = false →
      ((homeLoop md ct l s).cameBack = true ↔
        ∃ j, j < l.length ∧ (l.getD j default).gap ≥ -ct ∧
          (s.maxDef ≥ md ∨ ∃ i, i ≤ j ∧ (l.getD i default).gap < -md))
  | [], s, hs => by
      simp only [homeLoop, hs, List.length_nil]
      constructor
      · intro h
        cases h
      · rintro ⟨j, hj, _⟩
        omega
  | e :: rest, s, hs => by
      simp only [homeLoop]
      by_cases hbrk : (homeUpd md e s).maxDef ≥ md ∧ e.gap ≥ -ct
      · rw [if_pos hbrk]
        simp only [List.length_cons]
        constructor
        · intro _
          refine ⟨0, by omega, by simpa using hbrk.2, ?_⟩
          rcases (homeUpd_maxDef_ge md e s).mp hbrk.1 with h | h
          · exact Or.inl h
          · exact Or.inr ⟨0, le_refl 0, by simpa using h⟩
        · intro _
          trivial
      · rw [if_neg hbrk]
        rw [homeLoop_cameBack_iff md ct rest (homeUpd md e s)
          (by rw [homeUpd_cameBack]; exact hs)]
        constructor
        · rintro ⟨j, hj, hrec, hor⟩
          refine ⟨j + 1, by simp only [List.length_cons]; omega,
            by simpa using hrec, ?_⟩
          rcases hor with h | ⟨i, hi, hdef⟩
          · rcases (homeUpd_maxDef_ge md e s).mp h with h' | h'
            · exact Or.inl h'
            · exact Or.inr ⟨0, Nat.zero_le _, by simpa using h'⟩
          · exact Or.inr ⟨i + 1, by omega, by simpa using hdef⟩
        · rintro ⟨j, hj, hrec, hor⟩
          cases j with
          | zero =>
              exfalso
              apply hbrk
              constructor
              · apply (homeUpd_maxDef_ge md e s).mpr
                rcases hor with h | ⟨i, hi, hdef⟩
                · exact Or.inl h
                · have : i = 0 := by omega
                  subst this
                  exact Or.inr (by simpa using hdef)
              · simpa using hrec
          | succ j' =>
              refine ⟨j', by simp only [List.length_cons] at hj; omega,
                by simpa using hrec, ?_⟩
              rcases hor with h | ⟨i, hi, hdef⟩
              · exact Or.inl ((homeUpd_maxDef_ge md e s).mpr (Or.inl h))
              · cases i with
                | zero =>
                    exact Or.inl ((homeUpd_maxDef_ge md e s).mpr
                      (Or.inr (by simpa using hdef)))
                | succ i' =>
                    exact Or.inr ⟨i', by omega, by simpa using hdef⟩

theorem awayLoop_cameBack_iff (md ct : Int) :
    ∀ (l : List Ev) (s : DefState), s.cameBack = false →
      ((awayLoop md ct l s).cameBack = true ↔
        ∃ j, j < l.length ∧ (l.getD j default).gap ≤ ct ∧
          (s.maxDef ≥ md ∨ ∃ i, i ≤ j ∧ (l.getD i default).gap > md))
  | [], s, hs => by
      simp only [awayLoop, hs, List.length_nil]
      constructor
      · intro h
        cases h
      · rintro ⟨j, hj, _⟩
        omega
  | e :: rest, s, hs => by
      simp only [awayLoop]
      by_cases hbrk : (awayUpd md e s).maxDef ≥ md ∧ e.gap ≤ ct
      · rw [if_pos hbrk]
        simp only [List.length_cons]
        constructor
        · intro _
          refine ⟨0, by omega, by simpa using hbrk.2, ?_⟩
          rcases (awayUpd_maxDef_ge md e s).mp hbrk.1 with h | h
          · exact Or.inl h
          · exact Or.inr ⟨0, le_refl 0, by simpa using h⟩
        · intro _
          trivial
      · rw [if_neg hbrk]
        rw [awayLoop_cameBack_iff md ct rest (awayUpd md e s)
          (by rw [awayUpd_cameBack]; exact hs)]
        constructor
        · rintro ⟨j, hj, hrec, hor⟩
          refine ⟨j + 1, by simp only [List.length_cons]; omega,
            by simpa using hrec, ?_⟩
          rcases hor with h | ⟨i, hi, hdef⟩
          · rcases (awayUpd_maxDef_ge md e s).mp h with h' | h'
            · exact Or.inl h'
            · exact Or.inr ⟨0, Nat.zero_le _, by simpa using h'⟩
          · exact Or.inr ⟨i + 1, by omega, by simpa using hdef⟩
        · rintro ⟨j, hj, hrec, hor⟩
          cases j with
          | zero =>
              exfalso
              apply hbrk
              constructor
              · apply (awayUpd_maxDef_ge md e s).mpr
                rcases hor with h | ⟨i, hi, hdef⟩
                · exact Or.inl h
                · have : i = 0 := by omega
                  subst this
                  exact Or.inr (by simpa using hdef)
              · simpa using hrec
          | succ j' =>
              refine ⟨j', by simp only [List.length_cons] at hj; omega,
                by simpa using hrec, ?_⟩
              rcases hor with h | ⟨i, hi, hdef⟩
              · exact Or.inl ((awayUpd_maxDef_ge md e s).mpr (Or.inl h))
              · cases i with
                | zero =>
                    exact Or.inl ((awayUpd_maxDef_ge md e s).mpr
                      (Or.inr (by simpa using hdef)))
                | succ i' =>
                    exact Or.inr ⟨i', by omega, by simpa using hdef⟩

theorem homePair_isSome_iff (md ct : Int) (hmd : 0 < md) (f : List Ev)
    (ht aw gc : String) (fh fa : Int) (w : Bool) :
    (homePair md ct f ht aw gc fh fa w).isSome = true ↔
      ∃ j, j < f.length ∧ (f.getD j default).gap ≥ -ct ∧
        ∃ i, i ≤ j ∧ (f.getD i default).gap < -md := by
  have hiff := homeLoop_cameBack_iff md ct f ⟨0, 0, 0, false⟩ rfl
  unfold homePair
  simp only []
  split
  case isTrue h =>
    simp only [Option.isSome_some, true_iff]
    obtain ⟨j, hj, hrec, hor⟩ := hiff.mp h.2
    rcases hor with h0 | hex
    · exact absurd h0 (by simp; omega)
    · exact ⟨j, hj, hrec, hex⟩
  case isFalse h =>
    simp only [Option.isSome_none, Bool.false_eq_true, false_iff, not_exists]
    intro j hj
    obtain ⟨hjl, hrec, i, hi, hdef⟩ := hj
    apply h
    have hcb : (homeLoop md ct f ⟨0, 0, 0, false⟩).cameBack = true :=
      hiff.mpr ⟨j, hjl, hrec, Or.inr ⟨i, hi, hdef⟩⟩
    exact ⟨homeLoop_maxDef_ge md ct f ⟨0, 0, 0, false⟩ rfl hcb, hcb⟩

theorem awayPair_isSome_iff (md ct : Int) (hmd : 0 < md) (f : List Ev)
    (ht aw gc : String) (fh fa : Int) (w : Bool) :
    (awayPair md ct f ht aw gc fh fa w).isSome = true ↔
      ∃ j, j < f.length ∧ (f.getD j default).gap ≤ ct ∧
        ∃ i, i ≤ j ∧ (f.getD i default).gap > md := by
  have hiff := awayLoop_cameBack_iff md ct f ⟨0, 0, 0, false⟩ rfl
  unfold awayPair
  simp only []
  split
  case isTrue h =>
    simp only [Option.isSome_some, true_iff]
    obtain ⟨j, hj, hrec, hor⟩ := hiff.mp h.2
    rcases hor with h0 | hex
    · exact absurd h0 (by simp; omega)
    · exact ⟨j, hj, hrec, hex⟩
  case isFalse h =>
    simp only [Option.isSome_none, Bool.false_eq_true, false_iff, not_exists]
    intro j hj
    obtain ⟨hjl, hrec, i, hi, hdef⟩ := hj
    apply h
    have hcb : (awayLoop md ct f ⟨0, 0, 0, false⟩).cameBack = true :=
      hiff.mpr ⟨j, hjl, hrec, Or.inr ⟨i, hi, hdef⟩⟩
    exact ⟨awayLoop_maxDef_ge md ct f ⟨0, 0, 0, false⟩ rfl hcb, hcb⟩

/-- C2 counterexample: home trails by exactly `min_deficit = 10` and later
ties, satisfying the claimed condition (max deficit `>= 10`, later
recovery within 2), yet the tracker records nothing — the code requires
`gap < -min_deficit`, a strict deficit of at least 11; the full
`compute_comeback_stats` returns the 3-tuple with empty detail lists. -/
theorem comeback_boundary_counterexample :
    gameRecords 10 2
      [⟨"g", 1, 10, 0, 0, 0, "H", "A"⟩,
       ⟨"g", 1, 20, 0, 10, -10, "H", "A"⟩,
       ⟨"g", 1, 30, 10, 10, 0, "H", "A"⟩] = ([], []) ∧
    compute_comeback_stats (some
      [⟨"g", 1, 10, 0, 0, 0, "H", "A"⟩,
       ⟨"g", 1, 20, 0, 10, -10, "H", "A"⟩,
       ⟨"g", 1, 30, 10, 10, 0, "H", "A"⟩]) 10 2 = CBResult.triple [] [] ∧
    (validFilter (sortCBEv
      [⟨"g", 1, 10, 0, 0, 0, "H", "A"⟩,
       ⟨"g", 1, 20, 0, 10, -10, "H", "A"⟩,
       ⟨"g", 1, 30, 10, 10, 0, "H", "A"⟩])).map Ev.gap = [0, -10, 0] ∧
    ((10 : Int) ≥ 10 ∧ (0 : Int) ≥ -2) := by decide

/-- C2 amended: a `ComebackEpisode` (and its blown-lead mirror) is
recorded for a team iff some event of the filtered stream puts the team
behind by strictly more than `min_deficit` (at least `min_deficit + 1`)
and an event at or after it recovers to within `comeback_threshold`;
a deficit of exactly `min_deficit` is never recorded. -/
theorem comeback_recording_amended (md ct : Int) (f : List Ev)
    (ht aw gc : String) (fh fa : Int) (w : Bool) (hmd : 0 < md) :
    ((homePair md ct f ht aw gc fh fa w).isSome = true ↔
      ∃ j, j < f.length ∧ (f.getD j default).gap ≥ -ct ∧
        ∃ i, i ≤ j ∧ (f.getD i default).gap < -md) ∧
    ((awayPair md ct f ht aw gc fh fa w).isSome = true ↔
      ∃ j, j < f.length ∧ (f.getD j default).gap ≤ ct ∧
        ∃ i, i ≤ j ∧ (f.getD i default).gap > md) :=
  ⟨homePair_isSome_iff md ct hmd f ht aw gc fh fa w,
   awayPair_isSome_iff md ct hmd f ht aw gc fh fa w⟩

/-- C2 witness: the amended theorem at the default parameters on a
two-event stream with an 11-point home deficit followed by a tie. -/
theorem comeback_recording_witness :
    (0 : Int) < 10 ∧
    (((homePair 10 2
        [⟨"g", 1, 10, 0, 11, -11, "H", "A"⟩,
         ⟨"g", 1, 20, 11, 11, 0, "H", "A"⟩] "H" "A" "g" 11 11 false).isSome =
          true ↔
      ∃ j, j < ([⟨"g", 1, 10, 0, 11, -11, "H", "A"⟩,
         ⟨"g", 1, 20, 11, 11, 0, "H", "A"⟩] : List Ev).length ∧
        (([⟨"g", 1, 10, 0, 11, -11, "H", "A"⟩,
         ⟨"g", 1, 20, 11, 11, 0, "H", "A"⟩] : List Ev).getD j default).gap ≥
          -2 ∧
        ∃ i, i ≤ j ∧
          (([⟨"g", 1, 10, 0, 11, -11, "H", "A"⟩,
           ⟨"g", 1, 20, 11, 11, 0, "H", "A"⟩] : List Ev).getD i default).gap <
            -10) ∧
    ((awayPair 10 2
        [⟨"g", 1, 10, 0, 11, -11, "H", "A"⟩,
         ⟨"g", 1, 20, 11, 11, 0, "H", "A"⟩] "H" "A" "g" 11 11 false).isSome =
          true ↔
      ∃ j, j < ([⟨"g", 1, 10, 0, 11, -11, "H", "A"⟩,
         ⟨"g", 1, 20, 11, 11, 0, "H", "A"⟩] : List Ev).length ∧
        (([⟨"g", 1, 10, 0, 11, -11, "H", "A"⟩,
         ⟨"g", 1, 20, 11, 11, 0, "H", "A"⟩] : List Ev).getD j default).gap ≤
          2 ∧
        ∃ i, i ≤ j ∧
          (([⟨"g", 1, 10, 0, 11, -11, "H", "A"⟩,
           ⟨"g", 1, 20, 11, 11, 0, "H", "A"⟩] : List Ev).getD i default).gap >
            10)) :=
  ⟨by decide,
   comeback_recording_amended 10 2
     [⟨"g", 1, 10, 0, 11, -11, "H", "A"⟩,
      ⟨"g", 1, 20, 11, 11, 0, "H", "A"⟩] "H" "A" "g" 11 11 false (by decide)⟩

/-! Claim C6. -/

theorem closeRun_eq_specClose (min_run : Int) (ht aw gc : String)
    (h1 : ht ≠ "") (h2 : aw ≠ "") (h3 : ht ≠ aw) (side : Option Side)
    (pts : Int) :
    closeRun min_run ht aw gc (side.map (sideTeam ht aw)) pts =
      specClose min_run ht aw gc side pts := by
  have h4 : aw ≠ ht := Ne.symm h3
  cases side with
  | none => simp [closeRun, truthyTeam, specClose]
  | some s =>
      cases s with
      | home =>
          by_cases hp : pts ≥ min_run
          · simp [closeRun, specClose, truthyTeam, sideTeam, hp, h1]
          · simp [closeRun, specClose, truthyTeam, sideTeam, hp]
      | away =>
          by_cases hp : pts ≥ min_run
          · simp [closeRun, specClose, truthyTeam, sideTeam, hp, h2, h4]
          · simp [closeRun, specClose, truthyTeam, sideTeam, hp]

theorem runsLoop_eq_spec (min_run : Int) (ht aw gc : String)
    (h1 : ht ≠ "") (h2 : aw ≠ "") (h3 : ht ≠ aw) :
    ∀ (changes : List (Side × Int)) (side : Option Side) (pts : Int),
      runsLoop min_run ht aw gc changes (side.map (sideTeam ht aw)) pts =
        runDetectorSpec min_run ht aw gc changes side pts
  | [], side, pts => closeRun_eq_specClose min_run ht aw gc h1 h2 h3 side pts
  | (s, p) :: rest, side, pts => by
      have h4 : aw ≠ ht := Ne.symm h3
      have hrec := fun side' pts' =>
        runsLoop_eq_spec min_run ht aw gc h1 h2 h3 rest side' pts'
      have hclose := closeRun_eq_specClose min_run ht aw gc h1 h2 h3 side pts
      cases s with
      | home =>
          cases side with
          | none =>
              simp only [runsLoop, runDetectorSpec, Option.map_none']
              rw [if_neg (by simp), if_neg (by simp)]
              rw [show (closeRun min_run ht aw gc none pts) =
                    (specClose min_run ht aw gc none pts) from
                  closeRun_eq_specClose min_run ht aw gc h1 h2 h3 none pts]
              have := hrec (some Side.home) p
              simp only [Option.map_some', sideTeam] at this
              rw [this]
          | some s' =>
              cases s' with
              | home =>
                  simp only [runsLoop, runDetectorSpec, Option.map_some',
                    sideTeam]
                  simp only [if_true]
                  have := hrec (some Side.home) (pts + p)
                  simp only [Option.map_some', sideTeam] at this
                  exact this
              | away =>
                  simp only [runsLoop, runDetectorSpec, Option.map_some',
                    sideTeam]
                  rw [if_neg (by simp [h3]), if_neg (by simp)]
                  have hc := closeRun_eq_specClose min_run ht aw gc h1 h2 h3
                    (some Side.away) pts
                  simp only [Option.map_some', sideTeam] at hc
                  rw [hc]
                  have := hrec (some Side.home) p
                  simp only [Option.map_some', sideTeam] at this
                  rw [this]
      | away =>
          cases side with
          | none =>
              simp only [runsLoop, runDetectorSpec, Option.map_none']
              rw [if_neg (by simp), if_neg (by simp)]
              rw [show (closeRun min_run ht aw gc none pts) =
                    (specClose min_run ht aw gc none pts) from
                  closeRun_eq_specClose min_run ht aw gc h1 h2 h3 none pts]
              have := hrec (some Side.away) p
              simp only [Option.map_some', sideTeam] at this
              rw [this]
          | some s' =>
              cases s' with
              | home =>
                  simp only [runsLoop, runDetectorSpec, Option.map_some',
                    sideTeam]
                  rw [if_neg (by simp [h4]), if_neg (by simp)]
                  have hc := closeRun_eq_specClose min_run ht aw gc h1 h2 h3
                    (some Side.home) pts
                  simp only [Option.map_some', sideTeam] at hc
                  rw [hc]
                  have := hrec (some Side.away) p
                  simp only [Option.map_some', sideTeam] at this
                  rw [this]
              | away =>
                  simp only [runsLoop, runDetectorSpec, Option.map_some',
                    sideTeam]
                  simp only [if_true]
                  have := hrec (some Side.away) (pts + p)
                  simp only [Option.map_some', sideTeam] at this
                  exact this

/-- C6: for non-degenerate team names the run state machine of
`compute_scoring_runs` coincides with the specified detector — accumulate
on the same side, close on a side change emitting exactly when the
accumulated points reach `min_run`, restart on the new side, and close
the final open run at stream end — and the two stated scenarios hold:
8 unanswered points over three events followed by an opposing score yield
exactly one `Run(team=X, points=8)`, and a lone 3-point stretch yields no
run. -/
theorem run_detector_confirmed (min_run : Int) (ht aw gc : String)
    (h1 : ht ≠ "") (h2 : aw ≠ "") (h3 : ht ≠ aw) :
    (∀ changes : List (Side × Int),
      runsLoop min_run ht aw gc changes none 0 =
        runDetectorSpec min_run ht aw gc changes none 0) ∧
    gameRuns 8
      [⟨"g", 1, 10, 2, 0, 2, "X", "Y"⟩,
       ⟨"g", 1, 20, 5, 0, 5, "X", "Y"⟩,
       ⟨"g", 1, 30, 8, 0, 8, "X", "Y"⟩,
       ⟨"g", 1, 40, 8, 2, 6, "X", "Y"⟩] =
      [{ team := "X", opponent := "Y", run_points := 8, game_code := "g" }] ∧
    gameRuns 8
      [⟨"g", 4, 10, 59, 59, 0, "X", "Y"⟩,
       ⟨"g", 4, 20, 62, 59, 3, "X", "Y"⟩] = [] := by
  refine ⟨fun changes => ?_, by decide, by decide⟩
  exact runsLoop_eq_spec min_run ht aw gc h1 h2 h3 changes none 0

/-- C6 witness: the theorem applied to the concrete teams `"X"`, `"Y"`. -/
theorem run_detector_witness :
    (("X" : String) ≠ "" ∧ ("Y" : String) ≠ "" ∧ ("X" : String) ≠ "Y") ∧
    ((∀ changes : List (Side × Int),
      runsLoop 8 "X" "Y" "g" changes none 0 =
        runDetectorSpec 8 "X" "Y" "g" changes none 0) ∧
    gameRuns 8
      [⟨"g", 1, 10, 2, 0, 2, "X", "Y"⟩,
       ⟨"g", 1, 20, 5, 0, 5, "X", "Y"⟩,
       ⟨"g", 1, 30, 8, 0, 8, "X", "Y"⟩,
       ⟨"g", 1, 40, 8, 2, 6, "X", "Y"⟩] =
      [{ team := "X", opponent := "Y", run_points := 8, game_code := "g" }] ∧
    gameRuns 8
      [⟨"g", 4, 10, 59, 59, 0, "X", "Y"⟩,
       ⟨"g", 4, 20, 62, 59, 3, "X", "Y"⟩] = []) :=
  ⟨⟨by decide, by decide, by decide⟩,
   run_detector_confirmed 8 "X" "Y" "g" (by decide) (by decide) (by decide)⟩

/-! Claim C7. -/

theorem runTeamPoints_append (T : String) (l1 l2 : List RunRec) :
    runTeamPoints T (l1 ++ l2) = runTeamPoints T l1 + runTeamPoints T l2 := by
  simp [runTeamPoints, List.filter_append]

theorem score_changes_pos :
    ∀ (l : List Ev) (ph pa : Int) (c : Side × Int),
      c ∈ score_changes l ph pa → 0 < c.2
  | [], _, _, _, hc => by simp [score_changes] at hc
  | e :: rest, ph, pa, c, hc => by
      simp only [score_changes] at hc
      by_cases h1 : e.score_home = ph ∧ e.score_away = pa
      · rw [if_pos h1] at hc
        exact score_changes_pos rest ph pa c hc
      · rw [if_neg h1] at hc
        by_cases h2 : e.score_home < ph ∨ e.score_away < pa
        · rw [if_pos h2] at hc
          exact score_changes_pos rest ph pa c hc
        · rw [if_neg h2] at hc
          by_cases h3 : e.score_home - ph > 0 ∧ e.score_away - pa = 0
          · rw [if_pos h3] at hc
            rcases List.mem_cons.mp hc with hh | hmem
            · rw [hh]
              exact h3.1
            · exact score_changes_pos rest e.score_home e.score_away c hmem
          · rw [if_neg h3] at hc
            by_cases h4 : e.score_away - pa > 0 ∧ e.score_home - ph = 0
            · rw [if_pos h4] at hc
              rcases List.mem_cons.mp hc with hh | hmem
              · rw [hh]
                exact h4.1
              · exact score_changes_pos rest e.score_home e.score_away c hmem
            · rw [if_neg h4] at hc
              exact score_changes_pos rest e.score_home e.score_away c hc

theorem closeRun_team_bound (min_run : Int) (ht aw gc T : String)
    (team : Option String) (pts : Int) (hpts : 0 ≤ pts) :
    runTeamPoints T (closeRun min_run ht aw gc team pts) ≤
      (if team = some T then pts else 0) := by
  unfold closeRun
  cases team with
  | none => simp [truthyTeam, runTeamPoints]
  | some t =>
      by_cases hc : pts ≥ min_run ∧ truthyTeam (some t) = true
      · rw [if_pos hc]
        by_cases hT : t = T
        · subst hT
          simp [runTeamPoints]
        · simp [runTeamPoints, hT]
      · rw [if_neg hc]
        by_cases hT : (some t : Option String) = some T
        · simp only [runTeamPoints, List.filter_nil, List.map_nil,
            List.sum_nil, if_pos hT]
          exact hpts
        · simp [runTeamPoints, hT]

theorem runsLoop_team_bound (min_run : Int) (ht aw gc T : String) :
    ∀ (changes : List (Side × Int)) (team : Option String) (pts : Int),
      0 ≤ pts → (∀ c ∈ changes, 0 ≤ c.2) →
      runTeamPoints T (runsLoop min_run ht aw gc changes team pts) ≤
        teamSum ht aw T changes + (if team = some T then pts else 0)
  | [], team, pts, hpts, _ => by
      simpa [teamSum] using closeRun_team_bound min_run ht aw gc T team pts hpts
  | (s, p) :: rest, team, pts, hpts, hcs => by
      have hp : 0 ≤ p := hcs (s, p) (List.mem_cons_self _ _)
      have hrest : ∀ c ∈ rest, 0 ≤ c.2 := fun c hc =>
        hcs c (List.mem_cons_of_mem _ hc)
      have hSideTeam : ∀ sd : Side, sideTeam ht aw sd =
          (match sd with | Side.home => ht | Side.away => aw) := fun sd => rfl
      cases s with
      | home =>
          simp only [runsLoop, teamSum, sideTeam]
          by_cases hacc : (some ht : Option String) = team
          · rw [if_pos hacc]
            have ih := runsLoop_team_bound min_run ht aw gc T rest team
              (pts + p) (by omega) hrest
            by_cases hT : team = some T
            · have hht : ht = T := by
                rw [hT] at hacc
                exact Option.some.inj hacc
              rw [if_pos hT] at ih
              rw [if_pos hT, if_pos hht]
              omega
            · have hht : ¬ ht = T := fun h => hT (by rw [← hacc, h])
              rw [if_neg hT] at ih
              rw [if_neg hT, if_neg hht]
              omega
          · rw [if_neg hacc, runTeamPoints_append]
            have hclose := closeRun_team_bound min_run ht aw gc T team pts hpts
            have ih := runsLoop_team_bound min_run ht aw gc T rest
              (some ht) p hp hrest
            by_cases hht : ht = T
            · rw [if_pos (by rw [hht] : (some ht : Option String) = some T)]
                at ih
              rw [if_pos hht]
              by_cases hT : team = some T
              · rw [if_pos hT] at hclose
                rw [if_pos hT]
                omega
              · rw [if_neg hT] at hclose
                rw [if_neg hT]
                omega
            · rw [if_neg (fun h => hht (Option.some.inj h))] at ih
              rw [if_neg hht]
              by_cases hT : team = some T
              · rw [if_pos hT] at hclose
                rw [if_pos hT]
                omega
              · rw [if_neg hT] at hclose
                rw [if_neg hT]
                omega
      | away =>
          simp only [runsLoop, teamSum, sideTeam]
          by_cases hacc : (some aw : Option String) = team
          · rw [if_pos hacc]
            have ih := runsLoop_team_bound min_run ht aw gc T rest team
              (pts + p) (by omega) hrest
            by_cases hT : team = some T
            · have haw : aw = T := by
                rw [hT] at hacc
                exact Option.some.inj hacc
              rw [if_pos hT] at ih
              rw [if_pos hT, if_pos haw]
              omega
            · have haw : ¬ aw = T := fun h => hT (by rw [← hacc, h])
              rw [if_neg hT] at ih
              rw [if_neg hT, if_neg haw]
              omega
          · rw [if_neg hacc, runTeamPoints_append]
            have hclose := closeRun_team_bound min_run ht aw gc T team pts hpts
            have ih := runsLoop_team_bound min_run ht aw gc T rest
              (some aw) p hp hrest
            by_cases haw : aw = T
            · rw [if_pos (by rw [haw] : (some aw : Option String) = some T)]
                at ih
              rw [if_pos haw]
              by_cases hT : team = some T
              · rw [if_pos hT] at hclose
                rw [if_pos hT]
                omega
              · rw [if_neg hT] at hclose
                rw [if_neg hT]
                omega
            · rw [if_neg (fun h => haw (Option.some.inj h))] at ih
              rw [if_neg haw]
              by_cases hT : team = some T
              · rw [if_pos hT] at hclose
                rw [if_pos hT]
                omega
              · rw [if_neg hT] at hclose
                rw [if_neg hT]
                omega

theorem teamSum_eq_sideSum (ht aw : String) (hne : ht ≠ aw) :
    ∀ changes : List (Side × Int),
      teamSum ht aw ht changes = sideSum Side.home changes ∧
      teamSum ht aw aw changes = sideSum Side.away changes
  | [] => ⟨rfl, rfl⟩
  | (s, p) :: rest => by
      have ih := teamSum_eq_sideSum ht aw hne rest
      have hne' : aw ≠ ht := Ne.symm hne
      cases s with
      | home =>
          simp only [teamSum, sideSum, sideTeam, if_true]
          constructor
          · rw [ih.1]
          · rw [if_neg hne, if_neg (fun h => Side.noConfusion h), ih.2]
      | away =>
          simp only [teamSum, sideSum, sideTeam, if_true]
          constructor
          · rw [if_neg hne', if_neg (fun h => Side.noConfusion h), ih.1]
          · rw [ih.2]

theorem score_changes_side_bound :
    ∀ (l : List Ev) (ph pa : Int),
      sideSum Side.home (score_changes l ph pa) ≤ (finalPrev l ph pa).1 - ph ∧
      sideSum Side.away (score_changes l ph pa) ≤ (finalPrev l ph pa).2 - pa
  | [], ph, pa => by simp [score_changes, finalPrev, sideSum]
  | e :: rest, ph, pa => by
      simp only [score_changes, finalPrev]
      by_cases h1 : e.score_home = ph ∧ e.score_away = pa
      · rw [if_pos h1, if_pos h1]
        exact score_changes_side_bound rest ph pa
      · rw [if_neg h1, if_neg h1]
        by_cases h2 : e.score_home < ph ∨ e.score_away < pa
        · rw [if_pos h2, if_pos h2]
          exact score_changes_side_bound rest ph pa
        · rw [if_neg h2, if_neg h2]
          push_neg at h2
          obtain ⟨hh, ha⟩ := h2
          have ih := score_changes_side_bound rest e.score_home e.score_away
          have ih1 := ih.1
          have ih2 := ih.2
          by_cases h3 : e.score_home - ph > 0 ∧ e.score_away - pa = 0
          · rw [if_pos h3]
            constructor
            · simp only [sideSum, if_true]
              omega
            · simp only [sideSum]
              rw [if_neg (fun h => Side.noConfusion h)]
              omega
          · rw [if_neg h3]
            by_cases h4 : e.score_away - pa > 0 ∧ e.score_home - ph = 0
            · rw [if_pos h4]
              constructor
              · simp only [sideSum]
                rw [if_neg (fun h => Side.noConfusion h)]
                omega
              · simp only [sideSum, if_true]
                omega
            · rw [if_neg h4]
              constructor
              · omega
              · omega

theorem finalPrev_eq_last :
    ∀ (l : List Ev) (ph pa : Int), scoresMono (ph, pa) l = true →
      finalPrev l ph pa = lastScores l (ph, pa)
  | [], _, _, _ => rfl
  | e :: rest, ph, pa, hm => by
      simp only [scoresMono, Bool.and_eq_true, decide_eq_true_eq] at hm
      obtain ⟨⟨hh, ha⟩, hrest⟩ := hm
      simp only [finalPrev, lastScores]
      by_cases h1 : e.score_home = ph ∧ e.score_away = pa
      · rw [if_pos h1]
        rw [h1.1, h1.2] at hrest ⊢
        exact finalPrev_eq_last rest ph pa hrest
      · by_cases h2 : e.score_home < ph ∨ e.score_away < pa
        · exfalso
          rcases h2 with h2 | h2 <;> omega
        · rw [if_neg h1, if_neg h2]
          exact finalPrev_eq_last rest e.score_home e.score_away hrest

/-- C7: when the sorted stream of a game has non-decreasing scores (the
data-model invariant for a well-formed game), the total run points
credited by `compute_scoring_runs` to each team are at most that team's
final score — the score of the last event of the stream. -/
theorem run_conservation (min_run : Int) (evts : List Ev) (ht aw : String)
    (hteams : ∀ e ∈ sortRunsEv evts, e.home_team = ht ∧ e.away_team = aw)
    (hne : ht ≠ aw)
    (hmono : scoresMono (0, 0) (sortRunsEv evts) = true) :
    runTeamPoints ht (gameRuns min_run evts) ≤
      finalHomeScore (sortRunsEv evts) ∧
    runTeamPoints aw (gameRuns min_run evts) ≤
      finalAwayScore (sortRunsEv evts) := by
  unfold gameRuns
  cases hsort : sortRunsEv evts with
  | nil =>
      simp [runTeamPoints, finalHomeScore, finalAwayScore, lastScores]
  | cons e0 rest =>
      dsimp only
      have he0 := hteams e0 (by rw [hsort]; exact List.mem_cons_self _ _)
      rw [hsort] at hmono
      have hfinal := finalPrev_eq_last (e0 :: rest) 0 0 hmono
      have hpos : ∀ c ∈ score_changes (e0 :: rest) 0 0, 0 ≤ c.2 :=
        fun c hc => le_of_lt (score_changes_pos (e0 :: rest) 0 0 c hc)
      have hfh : finalHomeScore (e0 :: rest) =
          (finalPrev (e0 :: rest) 0 0).1 := by
        rw [finalHomeScore, hfinal]
      have hfa : finalAwayScore (e0 :: rest) =
          (finalPrev (e0 :: rest) 0 0).2 := by
        rw [finalAwayScore, hfinal]
      rw [he0.1, he0.2, hfh, hfa]
      have hts := teamSum_eq_sideSum ht aw hne (score_changes (e0 :: rest) 0 0)
      have hsb := score_changes_side_bound (e0 :: rest) 0 0
      constructor
      · have hb := runsLoop_team_bound min_run ht aw e0.game_code ht
          (score_changes (e0 :: rest) 0 0) none 0 le_rfl hpos
        rw [if_neg (fun h => Option.noConfusion h)] at hb
        have hts1 := hts.1
        have hsb1 := hsb.1
        omega
      · have hb := runsLoop_team_bound min_run ht aw e0.game_code aw
          (score_changes (e0 :: rest) 0 0) none 0 le_rfl hpos
        rw [if_neg (fun h => Option.noConfusion h)] at hb
        have hts2 := hts.2
        have hsb2 := hsb.2
        omega

/-- C7 witness: the conservation theorem on a concrete monotone game. -/
theorem run_conservation_witness :
    ((∀ e ∈ sortRunsEv
        [⟨"g", 1, 10, 2, 0, 2, "X", "Y"⟩,
         ⟨"g", 1, 20, 5, 0, 5, "X", "Y"⟩,
         ⟨"g", 1, 30, 8, 0, 8, "X", "Y"⟩,
         ⟨"g", 1, 40, 8, 2, 6, "X", "Y"⟩],
        e.home_team = "X" ∧ e.away_team = "Y") ∧
      ("X" : String) ≠ "Y" ∧
      scoresMono (0, 0) (sortRunsEv
        [⟨"g", 1, 10, 2, 0, 2, "X", "Y"⟩,
         ⟨"g", 1, 20, 5, 0, 5, "X", "Y"⟩,
         ⟨"g", 1, 30, 8, 0, 8, "X", "Y"⟩,
         ⟨"g", 1, 40, 8, 2, 6, "X", "Y"⟩]) = true) ∧
    (runTeamPoints "X" (gameRuns 8
        [⟨"g", 1, 10, 2, 0, 2, "X", "Y"⟩,
         ⟨"g", 1, 20, 5, 0, 5, "X", "Y"⟩,
         ⟨"g", 1, 30, 8, 0, 8, "X", "Y"⟩,
         ⟨"g", 1, 40, 8, 2, 6, "X", "Y"⟩]) ≤
      finalHomeScore (sortRunsEv
        [⟨"g", 1, 10, 2, 0, 2, "X", "Y"⟩,
         ⟨"g", 1, 20, 5, 0, 5, "X", "Y"⟩,
         ⟨"g", 1, 30, 8, 0, 8, "X", "Y"⟩,
         ⟨"g", 1, 40, 8, 2, 6, "X", "Y"⟩]) ∧
    runTeamPoints "Y" (gameRuns 8
        [⟨"g", 1, 10, 2, 0, 2, "X", "Y"⟩,
         ⟨"g", 1, 20, 5, 0, 5, "X", "Y"⟩,
         ⟨"g", 1, 30, 8, 0, 8, "X", "Y"⟩,
         ⟨"g", 1, 40, 8, 2, 6, "X", "Y"⟩]) ≤
      finalAwayScore (sortRunsEv
        [⟨"g", 1, 10, 2, 0, 2, "X", "Y"⟩,
         ⟨"g", 1, 20, 5, 0, 5, "X", "Y"⟩,
         ⟨"g", 1, 30, 8, 0, 8, "X", "Y"⟩,
         ⟨"g", 1, 40, 8, 2, 6, "X", "Y"⟩])) :=
  ⟨⟨by decide, by decide, by decide⟩,
   run_conservation 8
     [⟨"g", 1, 10, 2, 0, 2, "X", "Y"⟩,
      ⟨"g", 1, 20, 5, 0, 5, "X", "Y"⟩,
      ⟨"g", 1, 30, 8, 0, 8, "X", "Y"⟩,
      ⟨"g", 1, 40, 8, 2, 6, "X", "Y"⟩] "X" "Y"
     (by decide) (by decide) (by decide)⟩

end LNP
